import Mathlib

/-!
Shallow embedding of the pubmed-explorer query compiler and its helpers.

Source files embedded here:
  * `src/src/query_compiler.py` — `_strip_filler`, `_extract_since_year`,
    `_extract_year_range`, `_fmt_pdat`, `compile_pubmed_query`;
  * `src/src/ai_query_expansion.py` — `_clean_candidate`, `expand_terms_groq`;
  * `src/src/reply.py` — `_truncate`;
  * `src/app.py` — `detect_confidence_level_1`.

Modelling conventions:
  * Python strings are modelled as `List Char`; Python character classes
    (`\s`, `\w`, `\d`, `str.strip`, `str.lower`) are modelled over their
    ASCII behaviour, which is exact for all inputs appearing in the claims.
  * The spaCy-backed `_tokenize_terms` and the two external Groq calls are
    not algorithms of this repository; they are modelled as explicit
    function parameters (`tokenize`, `construct`/`call`, `expander`), so
    every theorem quantifies over their behaviour.
  * `datetime.now()` is modelled as an explicit `PyDateTime` argument;
    `os.getenv` results are explicit `Option (List Char)` arguments.
  * The regular expressions of the source are compiled by hand into
    executable scanners that reproduce `re.search` / `re.sub` semantics
    (leftmost match, greedy `\s+`, ordered alternation with backtracking,
    `\b` word boundaries over `[A-Za-z0-9_]`).
-/

abbrev Str := List Char

/-- Convert a Lean string literal to the `List Char` representation. -/
def ltr (s : String) : Str := s.toList

/-- ASCII model of Python's whitespace class (`str.strip`, regex `\s`). -/
def pyIsSpace (c : Char) : Bool :=
  c = ' ' || c = '\t' || c = '\n' || c = '\r' || c = '\x0b' || c = '\x0c'

/-- Python `str.lstrip()`. -/
def pyLStrip (l : Str) : Str := l.dropWhile pyIsSpace

/-- Python `str.rstrip()`. -/
def pyRStrip (l : Str) : Str := (l.reverse.dropWhile pyIsSpace).reverse

/-- Python `str.strip()`. -/
def pyStrip (l : Str) : Str := pyRStrip (pyLStrip l)

/-- Python `str.strip(ch)` for a single character argument. -/
def pyStripChar (ch : Char) (l : Str) : Str :=
  ((l.dropWhile (· = ch)).reverse.dropWhile (· = ch)).reverse

/-- Python `str.lower()` (ASCII model). -/
def lowerStr (l : Str) : Str := l.map Char.toLower

/-- Regex word character `\w`: `[A-Za-z0-9_]` (ASCII model). -/
def isWordChar (c : Char) : Bool := c.isAlphanum || c = '_'

/-- A word boundary `\b` holds before the current position when the
previous character (if any) is not a word character; the scanners below
only ever test `\b` at positions followed by a word character. -/
def prevNonWord : Option Char → Bool
  | none => true
  | some c => !isWordChar c

/-- A word boundary `\b` holds after a word character when the next
character (the head of the remainder, if any) is not a word character. -/
def bAfterOk : Str → Bool
  | [] => true
  | c :: _ => !isWordChar c

/-- Case-insensitive literal matching: drop the (lowercase) literal `lit`
from the front of `s`, returning the remainder on success. -/
def dropLit : Str → Str → Option Str
  | [], s => some s
  | _ :: _, [] => none
  | l :: ls, c :: cs => if c.toLower = l then dropLit ls cs else none

theorem dropLit_length {lit s r : Str} (h : dropLit lit s = some r) :
    r.length + lit.length = s.length := by
  induction lit generalizing s with
  | nil => simp [dropLit] at h; simp [h]
  | cons l ls ih =>
    cases s with
    | nil => simp [dropLit] at h
    | cons c cs =>
      simp only [dropLit] at h
      split at h
      · have := ih h
        simp only [List.length_cons]
        omega
      · exact absurd h (by simp)

/-- Regex `\s+` (greedy): consume one or more whitespace characters. -/
def spacesPlus : Str → Option Str
  | [] => none
  | c :: cs => if pyIsSpace c then some (cs.dropWhile pyIsSpace) else none

theorem spacesPlus_length {s r : Str} (h : spacesPlus s = some r) :
    r.length < s.length := by
  cases s with
  | nil => simp [spacesPlus] at h
  | cons c cs =>
    simp only [spacesPlus] at h
    split at h
    · cases h
      exact Nat.lt_succ_of_le (cs.dropWhile_sublist pyIsSpace).length_le
    · exact absurd h (by simp)

/-- Regex `(\d{4})`: consume exactly four ASCII digits, returning their
value, the last digit consumed and the remainder. -/
def digit4 : Str → Option (Nat × Char × Str)
  | c1 :: c2 :: c3 :: c4 :: rest =>
    if c1.isDigit && c2.isDigit && c3.isDigit && c4.isDigit then
      some ((c1.toNat - 48) * 1000 + (c2.toNat - 48) * 100 +
            (c3.toNat - 48) * 10 + (c4.toNat - 48), c4, rest)
    else none
  | _ => none

theorem digit4_length {s : Str} {y : Nat} {lc : Char} {r : Str}
    (h : digit4 s = some (y, lc, r)) : r.length + 4 = s.length := by
  match s, h with
  | c1 :: c2 :: c3 :: c4 :: rest, h =>
    simp only [digit4] at h
    split at h
    · cases h; simp
    · exact absurd h (by simp)

/-- Match of `since\s+(\d{4})\b` at the current position (the leading `\b`
is checked by the callers via `prevNonWord`).  Returns the captured year,
the last character consumed and the remainder of the input. -/
def hereSince (s : Str) : Option (Nat × Char × Str) :=
  match dropLit (ltr "since") s with
  | none => none
  | some r1 =>
    match spacesPlus r1 with
    | none => none
    | some r2 =>
      match digit4 r2 with
      | none => none
      | some (y, lc, r3) => if bAfterOk r3 then some (y, lc, r3) else none

theorem hereSince_length {s : Str} {y : Nat} {lc : Char} {r : Str}
    (h : hereSince s = some (y, lc, r)) : r.length < s.length := by
  unfold hereSince at h
  split at h
  · exact absurd h (by simp)
  next r1 h1 =>
    split at h
    · exact absurd h (by simp)
    next r2 h2 =>
      split at h
      · exact absurd h (by simp)
      next y' lc' r3 h3 =>
        split at h
        · cases h
          have e1 := dropLit_length h1
          have e2 := spacesPlus_length h2
          have e3 := digit4_length h3
          simp [ltr] at e1
          omega
        · exact absurd h (by simp)

/-- Shared continuation `\s+(\d{4})\b` of the `(to|-)` alternation inside
the year-range pattern. -/
def rangeTail (y1 : Nat) (r5 : Str) : Option (Nat × Nat × Char × Str) :=
  match spacesPlus r5 with
  | none => none
  | some r6 =>
    match digit4 r6 with
    | none => none
    | some (y2, lc, r7) =>
      if bAfterOk r7 then some (y1, y2, lc, r7) else none

theorem rangeTail_length {y1 : Nat} {z : Str} {res : Nat × Nat × Char × Str}
    (h : rangeTail y1 z = some res) : res.2.2.2.length < z.length := by
  unfold rangeTail at h
  split at h
  · exact absurd h (by simp)
  next r6 h6 =>
    split at h
    · exact absurd h (by simp)
    next y' lc' r7 h7 =>
      split at h
      · cases h
        have := spacesPlus_length h6
        have := digit4_length h7
        simp
        omega
      · exact absurd h (by simp)

/-- Match of `from\s+(\d{4})\s+(to|-)\s+(\d{4})\b` at the current position
(the leading `\b` is checked by the callers).  The alternation `(to|-)` is
tried in regex order with full backtracking into the shared continuation. -/
def hereRange (s : Str) : Option (Nat × Nat × Char × Str) :=
  match dropLit (ltr "from") s with
  | none => none
  | some r1 =>
    match spacesPlus r1 with
    | none => none
    | some r2 =>
      match digit4 r2 with
      | none => none
      | some (y1, _, r3) =>
        match spacesPlus r3 with
        | none => none
        | some r4 =>
          match dropLit (ltr "to") r4 with
          | some r5 =>
            match rangeTail y1 r5 with
            | some res => some res
            | none =>
              match dropLit (ltr "-") r4 with
              | some r5' => rangeTail y1 r5'
              | none => none
          | none =>
            match dropLit (ltr "-") r4 with
            | some r5' => rangeTail y1 r5'
            | none => none

theorem hereRange_length {s : Str} {y1 y2 : Nat} {lc : Char} {r : Str}
    (h : hereRange s = some (y1, y2, lc, r)) : r.length < s.length := by
  unfold hereRange at h
  split at h
  · exact absurd h (by simp)
  next r1 h1 =>
    split at h
    · exact absurd h (by simp)
    next r2 h2 =>
      split at h
      · exact absurd h (by simp)
      next y1' c' r3 h3 =>
        split at h
        · exact absurd h (by simp)
        next r4 h4 =>
          have e1 := dropLit_length h1
          have e2 := spacesPlus_length h2
          have e3 := digit4_length h3
          have e4 := spacesPlus_length h4
          simp [ltr] at e1
          split at h
          next r5 h5 =>
            split at h
            next res hres =>
              cases h
              have := rangeTail_length hres
              simp at this
              have e5 := dropLit_length h5
              simp [ltr] at e5
              omega
            next hres =>
              split at h
              next r5' h5' =>
                have := rangeTail_length h
                simp at this
                have e5 := dropLit_length h5'
                simp [ltr] at e5
                omega
              · exact absurd h (by simp)
          next h5 =>
            split at h
            next r5' h5' =>
              have := rangeTail_length h
              simp at this
              have e5 := dropLit_length h5'
              simp [ltr] at e5
              omega
            · exact absurd h (by simp)

/-- `re.search(r"\bsince\s+(\d{4})\b", ·)`: leftmost match, scanning every
start position whose preceding character satisfies the word boundary. -/
def searchSince : Option Char → Str → Option Nat
  | _, [] => none
  | prev, s@(c :: rest) =>
    if prevNonWord prev then
      match hereSince s with
      | some (y, _, _) => some y
      | none => searchSince (some c) rest
    else searchSince (some c) rest

/-- `re.search(r"\bfrom\s+(\d{4})\s+(to|-)\s+(\d{4})\b", ·)`. -/
def searchRange : Option Char → Str → Option (Nat × Nat)
  | _, [] => none
  | prev, s@(c :: rest) =>
    if prevNonWord prev then
      match hereRange s with
      | some (y1, y2, _, _) => some (y1, y2)
      | none => searchRange (some c) rest
    else searchRange (some c) rest

/-- `re.sub(r"\bsince\s+\d{4}\b", " ", ·, flags=re.IGNORECASE)`: replace
every non-overlapping leftmost match by a single space, resuming the scan
at the match end (the previous character for later boundary checks is the
last character of the replaced span). -/
def subSince : Option Char → Str → Str
  | _, [] => []
  | prev, c :: rest =>
    if prevNonWord prev then
      match h : hereSince (c :: rest) with
      | some (_, lc, r) => ' ' :: subSince (some lc) r
      | none => c :: subSince (some c) rest
    else c :: subSince (some c) rest
termination_by _ s => s.length
decreasing_by
  · simpa using hereSince_length h
  · simp
  · simp

/-- `re.sub(r"\bfrom\s+\d{4}\s+(to|-)\s+\d{4}\b", " ", ·, flags=re.IGNORECASE)`. -/
def subRange : Option Char → Str → Str
  | _, [] => []
  | prev, c :: rest =>
    if prevNonWord prev then
      match h : hereRange (c :: rest) with
      | some (_, _, lc, r) => ' ' :: subRange (some lc) r
      | none => c :: subRange (some c) rest
    else c :: subRange (some c) rest
termination_by _ s => s.length
decreasing_by
  · simpa using hereRange_length h
  · simp
  · simp

/-- Model of a Python `datetime.datetime` value. -/
structure PyDateTime where
  year : Nat
  month : Nat
  day : Nat
  hour : Nat
  minute : Nat
  second : Nat
  microsecond : Nat
deriving DecidableEq, Repr

/-- `datetime(y, m, d)` (midnight). -/
def mkDate (y m d : Nat) : PyDateTime := ⟨y, m, d, 0, 0, 0, 0⟩

/-- Decimal digits of a natural number, fuel-based so that it reduces
definitionally (the fuel `n + 1` always suffices since `n / 10 < n`). -/
def decDigitsAux : Nat → Nat → Str
  | 0, _ => []
  | fuel + 1, n =>
    if n < 10 then [Nat.digitChar n]
    else decDigitsAux fuel (n / 10) ++ [Nat.digitChar (n % 10)]

/-- Decimal digits of a natural number (no leading zeros except for 0). -/
def decDigits (n : Nat) : Str := decDigitsAux (n + 1) n

/-- Left-pad a digit string with zeros to width `w` (printf `%0wd`). -/
def padZ (w : Nat) (ds : Str) : Str := List.replicate (w - ds.length) '0' ++ ds

def num2 (n : Nat) : Str := padZ 2 (decDigits n)
def num4 (n : Nat) : Str := padZ 4 (decDigits n)
def num6 (n : Nat) : Str := padZ 6 (decDigits n)

/-- `_fmt_pdat` of `query_compiler.py`: `d.strftime("%Y/%m/%d")`. -/
def _fmt_pdat (d : PyDateTime) : Str :=
  num4 d.year ++ '/' :: num2 d.month ++ '/' :: num2 d.day

/-- Python `datetime.isoformat()` (microseconds appended only when
non-zero), used by the debug trace of `compile_pubmed_query`. -/
def isoformat (d : PyDateTime) : Str :=
  num4 d.year ++ '-' :: num2 d.month ++ '-' :: num2 d.day ++
  'T' :: num2 d.hour ++ ':' :: num2 d.minute ++ ':' :: num2 d.second ++
  (if d.microsecond = 0 then [] else '.' :: num6 d.microsecond)

/-- Chronological order on `PyDateTime` (Python's field-lexicographic
datetime comparison). -/
def dateLE (a b : PyDateTime) : Prop :=
  a.year < b.year ∨ (a.year = b.year ∧
    (a.month < b.month ∨ (a.month = b.month ∧
      (a.day < b.day ∨ (a.day = b.day ∧
        (a.hour < b.hour ∨ (a.hour = b.hour ∧
          (a.minute < b.minute ∨ (a.minute = b.minute ∧
            (a.second < b.second ∨ (a.second = b.second ∧
              a.microsecond ≤ b.microsecond)))))))))))

instance (a b : PyDateTime) : Decidable (dateLE a b) := by
  unfold dateLE; infer_instance

/-- `_extract_since_year` of `query_compiler.py`; `datetime.now()` is the
explicit argument `now`. -/
def _extract_since_year (now : PyDateTime) (text : Str) :
    Option PyDateTime × Option PyDateTime :=
  match searchSince none (lowerStr text) with
  | none => (none, none)
  | some y => (some (mkDate y 1 1), some now)

/-- `_extract_year_range` of `query_compiler.py`. -/
def _extract_year_range (text : Str) :
    Option PyDateTime × Option PyDateTime :=
  match searchRange none (lowerStr text) with
  | none => (none, none)
  | some (y1, y2) => (some (mkDate y1 1 1), some (mkDate y2 12 31))

/-- `_MIN_REMAINING_CHARS` of `query_compiler.py`. -/
def _MIN_REMAINING_CHARS : Nat := 6

/-- Test of a whole word at the head of the input: a case-insensitive
literal followed by a word boundary. -/
def wordHere (lit : Str) (s : Str) : Bool :=
  match dropLit lit s with
  | some r => bAfterOk r
  | none => false

/-- Word list of the anti-cascading safety rail of `_strip_filler`. -/
def railWords : List Str :=
  [ltr "what", ltr "how", ltr "why", ltr "when", ltr "where", ltr "which",
   ltr "can", ltr "could", ltr "would", ltr "will"]

/-- `re.match(r"^(what|how|why|when|where|which|can|could|would|will)\b", ·, re.I)`
as a Boolean test. -/
def railHead (s : Str) : Bool := railWords.any (fun w => wordHere w s)

/-- `_strip_filler` of `query_compiler.py`.  The `_FILLER_PREFIX` regex is
modelled as the abstract parameter `fillerMatch`, returning the end offset
`m.end()` of a leading match when one exists (the regex itself only
consults the text, so it is a pure function of `t`); every theorem below
quantifies over this parameter, hence covers the concrete regex. -/
def _strip_filler (fillerMatch : Str → Option Nat) (text : Str) : Str :=
  let t := pyStrip text
  if t.head? = some '"' then t
  else
    match fillerMatch t with
    | none => t
    | some e =>
      let remainder := pyStrip (t.drop e)
      if remainder = [] then t
      else if remainder.length < _MIN_REMAINING_CHARS then t
      else if railHead remainder then t
      else remainder

/-- `_truncate` of `reply.py`. -/
def _truncate (text : Str) (maxChars : Nat) : Str :=
  let t := pyStrip text
  if t.length ≤ maxChars then t
  else pyRStrip (t.take (maxChars - 3)) ++ ltr "..."

/-- `_BAD_CHARS` of `ai_query_expansion.py`: `[\[\]():]`. -/
def badChar (c : Char) : Bool :=
  c = '[' || c = ']' || c = '(' || c = ')' || c = ':'

/-- `_BAD_TOKENS.search` of `ai_query_expansion.py`:
`\b(AND|OR|NOT)\b` with `re.IGNORECASE`, scanned at every position. -/
def hasBoolTokAux : Option Char → Str → Bool
  | _, [] => false
  | prev, s@(c :: rest) =>
    (prevNonWord prev &&
      (wordHere (ltr "and") s || wordHere (ltr "or") s ||
       wordHere (ltr "not") s)) ||
    hasBoolTokAux (some c) rest

def hasBoolTok (s : Str) : Bool := hasBoolTokAux none s

/-- `re.sub(r"\s+", " ", ·)`: collapse every whitespace run to one space. -/
def collapseWS : Str → Str
  | [] => []
  | c :: cs =>
    if pyIsSpace c then ' ' :: collapseWS (cs.dropWhile pyIsSpace)
    else c :: collapseWS cs
termination_by s => s.length
decreasing_by
  · exact Nat.lt_succ_of_le (List.Sublist.length_le (List.dropWhile_sublist _))
  · simp

/-- The `s.strip().strip('"').strip("'").strip()` chain opening
`_clean_candidate`. -/
def cleanTrim (s : Str) : Str :=
  pyStrip (pyStripChar '\'' (pyStripChar '"' (pyStrip s)))

/-- `_clean_candidate` of `ai_query_expansion.py` (returns `[]` for the
Python empty string `""`). -/
def _clean_candidate (s : Str) : Str :=
  if (collapseWS (cleanTrim s)).length < 3 then []
  else if (collapseWS (cleanTrim s)).any badChar then []
  else if hasBoolTok (collapseWS (cleanTrim s)) then []
  else if (collapseWS (cleanTrim s)).head? = some '-' then []
  else if 60 < (collapseWS (cleanTrim s)).length then []
  else collapseWS (cleanTrim s)

/-- Python line-break characters recognised by `str.splitlines`. -/
def isLineBreak (c : Char) : Bool :=
  c = '\n' || c = '\r' || c = '\x0b' || c = '\x0c' ||
  c = '\x1c' || c = '\x1d' || c = '\x1e' || c = '\x85' ||
  c = ' ' || c = ' '

/-- Python `str.splitlines()` (`\r\n` counts as a single break; a trailing
break produces no extra empty line). -/
def splitLines : Str → List Str
  | [] => []
  | '\r' :: '\n' :: rest => [] :: splitLines rest
  | c :: rest =>
    if isLineBreak c then [] :: splitLines rest
    else
      match splitLines rest with
      | [] => [c :: []]
      | ln :: lns => (c :: ln) :: lns

/-- The stripped non-empty lines of the backend's raw output:
`[ln.strip() for ln in text.splitlines() if ln.strip()]`. -/
def rawLinesOf (text : Str) : List Str :=
  ((splitLines text).map pyStrip).filter (fun ln => ln ≠ [])

/-- The accumulation loop of `expand_terms_groq` (lines 79–88 of
`ai_query_expansion.py`): `seen` starts from the lowercased seed terms,
accepted candidates are appended in production order, and the loop breaks
once `max_new` candidates are collected. -/
def expLoop (maxNew : Nat) : List Str → List Str → List Str → List Str
  | _, acc, [] => acc
  | seen, acc, ln :: rest =>
    let cand := _clean_candidate ln
    if cand = [] then expLoop maxNew seen acc rest
    else if lowerStr cand ∈ seen then expLoop maxNew seen acc rest
    else if maxNew ≤ acc.length + 1 then acc ++ [cand]
    else expLoop maxNew (lowerStr cand :: seen) (acc ++ [cand]) rest

/-- The output-parsing and safety-filter stage of `expand_terms_groq`,
applied to the raw text returned by the backend. -/
def expansionFilter (seed_terms : List Str) (maxNew : Nat) (text : Str) :
    List Str :=
  expLoop maxNew (seed_terms.map lowerStr) [] (rawLinesOf text)

/-- Model of a constructed `Groq(api_key=...)` client object. -/
structure GroqClient where
  apiKey : Str
deriving DecidableEq, Repr

/-- `expand_terms_groq` of `ai_query_expansion.py`.  Exceptions are
modelled with `Except Unit`: `.error` is an uncaught Python exception
propagating to the caller.  `envApiKey` models `os.getenv("GROQ_API_KEY", "")`,
`groqAvailable` models the `groq` import having succeeded, `construct`
models the `Groq(api_key=api_key)` constructor (line 46, outside the
`try` block), and `call` models the `client.chat.completions.create`
call together with the extraction of `resp.choices[0].message.content`
(inside the `try` block). -/
def expand_terms_groq (envApiKey : Option Str) (groqAvailable : Bool)
    (construct : Str → Except Unit GroqClient)
    (call : GroqClient → Except Unit Str)
    (user_text : Str) (seed_terms : List Str) (maxNew : Nat) :
    Except Unit (List Str) :=
  let apiKey := pyStrip (envApiKey.getD [])
  if apiKey = [] || !groqAvailable then .ok []
  else
    match construct apiKey with
    | .error e => .error e
    | .ok client =>
      match call client with
      | .error _ => .ok []
      | .ok text =>
        let _ := user_text
        .ok (expansionFilter seed_terms maxNew text)

/-- The field tag `[Title/Abstract]`. -/
def tagTA : Str := ltr "[Title/Abstract]"

/-- One field-restricted clause of `compile_pubmed_query` (lines 183 and
186–191): multi-word terms (containing a space) are quoted, single-word
terms are not. -/
def mkClause (t : Str) : Str :=
  if ' ' ∈ t then '"' :: (t ++ '"' :: tagTA) else t ++ tagTA

/-- Python `sep.join(xs)`. -/
def joinSep (sep : Str) : List Str → Str
  | [] => []
  | [x] => x
  | x :: y :: ys => x ++ sep ++ joinSep sep (y :: ys)

/-- The topic-query assembly of `compile_pubmed_query` (lines 181–202):
AND over the base clauses, an optional OR bucket of expansion clauses,
and the verbatim-original fallback when no terms were extracted. -/
def assembleTopic (original : Str) (terms aiTerms : List Str) : Str :=
  if terms = [] then original
  else
    let base := terms.map mkClause
    let extra := aiTerms.map mkClause
    if extra = [] then ltr "(" ++ joinSep (ltr " AND ") base ++ ltr ")"
    else
      ltr "((" ++ joinSep (ltr " AND ") base ++ ltr ") OR (" ++
        joinSep (ltr " OR ") extra ++ ltr "))"

/-- The conjunctive date filter of `compile_pubmed_query` (lines 205–206),
empty unless both bounds are present. -/
def dateClause : Option PyDateTime × Option PyDateTime → Str
  | (some s, some e) =>
    ltr " AND (\"" ++ _fmt_pdat s ++ ltr "\"[PDAT] : \"" ++
      _fmt_pdat e ++ ltr "\"[PDAT])"
  | _ => []

/-- The date-constraint selection of `compile_pubmed_query` (lines
164–167): the explicit range wins; `since` is only consulted when the
range pattern produced no start date. -/
def pickDates (now : PyDateTime) (core : Str) :
    Option PyDateTime × Option PyDateTime :=
  let d0 := _extract_year_range core
  if d0.1 = none then _extract_since_year now core else d0

/-- The date-phrase removal of `compile_pubmed_query` (lines 170–171):
the `since` pattern is blanked first, then the range pattern. -/
def topicTextOf (core : Str) : Str := subRange none (subSince none core)

/-- The `debug` dictionary returned by `compile_pubmed_query` (dates are
stored as their `isoformat()` strings, `None` as `Option.none`). -/
structure DebugTrace where
  original : Str
  core_after_filler_strip : Str
  terms_used : List Str
  start_date : Option Str
  end_date : Option Str
  ai_expansion_enabled : Bool
  ai_added_terms : List Str
  pubmed_term : Str
deriving DecidableEq, Repr

/-- `compile_pubmed_query` of `query_compiler.py`.

External collaborators appear as explicit parameters: `fillerMatch` is
the `_FILLER_PREFIX` regex match (see `_strip_filler`), `tokenize` is the
spaCy-backed `_tokenize_terms`, `expander` is `expand_terms_groq` (its
successful, exception-free result), `envUseAi` is
`os.getenv("USE_AI_EXPANSION", "1")` and `now` is `datetime.now()`. -/
def compile_pubmed_query (fillerMatch : Str → Option Nat)
    (tokenize : Str → List Str)
    (expander : Str → List Str → Nat → List Str)
    (envUseAi : Option Str) (now : PyDateTime)
    (user_text : Str) : Str × DebugTrace :=
  let original := pyStrip user_text
  let core := _strip_filler fillerMatch original
  let dates := pickDates now core
  let terms := tokenize (topicTextOf core)
  let use_ai : Bool := decide (pyStrip (envUseAi.getD (ltr "1")) ≠ ltr "0")
  let ai_terms := if use_ai && decide (terms ≠ []) then expander original terms 6 else []
  let q := assembleTopic original terms ai_terms ++ dateClause dates
  (q, { original := original,
        core_after_filler_strip := core,
        terms_used := terms,
        start_date := dates.1.map isoformat,
        end_date := dates.2.map isoformat,
        ai_expansion_enabled := use_ai,
        ai_added_terms := ai_terms,
        pubmed_term := q })

/-- The low-evidence cue phrases of `detect_confidence_level_1`. -/
def lowCues : List Str :=
  [ltr "not enough evidence", ltr "insufficient evidence",
   ltr "do not directly address", ltr "does not directly address",
   ltr "cannot conclude", ltr "not possible to conclude",
   ltr "do not allow us to conclude", ltr "limited direct evidence"]

/-- The moderate-hedge cue words of `detect_confidence_level_1`. -/
def moderateCues : List Str :=
  [ltr "suggests", ltr "may", ltr "might", ltr "could",
   ltr "indirect", ltr "mixed", ltr "limited"]

/-- Exact (case-sensitive) literal occurrence at the head of the input. -/
def litAt : Str → Str → Bool
  | [], _ => true
  | _ :: _, [] => false
  | a :: as, b :: bs => a = b && litAt as bs

/-- Python substring test `p in t`. -/
def hasSub : Str → Str → Bool
  | p, [] => litAt p []
  | p, t@(_ :: rest) => litAt p t || hasSub p rest

/-- The fixed justification sentences of `detect_confidence_level_1`. -/
def lowReason : Str :=
  ltr "The retrieved abstracts do not directly support a strong conclusion for this question."
def moderateReason : Str :=
  ltr "Some evidence is relevant, but the conclusion relies on indirect or limited findings."
def highReason : Str :=
  ltr "Multiple statements appear directly supported by the retrieved abstracts."

/-- `detect_confidence_level_1` of `app.py` (`answer_md or ""` is the
`Option.getD`; `sum(p in t for p in cues)` is `countP`). -/
def detect_confidence_level_1 (answer_md : Option Str) : Str × Str :=
  let t := lowerStr (answer_md.getD [])
  let low_hits := lowCues.countP (fun p => hasSub p t)
  let moderate_hits := moderateCues.countP (fun p => hasSub p t)
  if 1 ≤ low_hits then (ltr "Low", lowReason)
  else if 2 ≤ moderate_hits then (ltr "Moderate", moderateReason)
  else (ltr "High", highReason)

/-! ### Claim C3 — error handling of `expand_terms_groq` -/

/-- C3 (code bug): the claim (and the function's own docstring, "Safe
fallback: returns [] on any error") promise that `expand_terms_groq`
never raises; but `client = Groq(api_key=api_key)` on line 46 sits
outside the `try` block, so an exception raised by the backend
constructor propagates to the caller, while a failure of the guarded
call inside `try` does return `[]`. -/
theorem C3_construction_exception_propagates :
    expand_terms_groq (some (ltr "key")) true (fun _ => .error ())
        (fun _ => .ok []) (ltr "question") [] 6 = .error ()
  ∧ expand_terms_groq (some (ltr "key")) true (fun k => .ok ⟨k⟩)
        (fun _ => .error ()) (ltr "question") [] 6 = .ok [] := by
  exact ⟨rfl, rfl⟩

/-! ### Claim C9 — confidence classifier precedence -/

/-- C9: for every synthesized answer, `detect_confidence_level_1`
returns Low with its fixed justification whenever any low-evidence cue
occurs in the lowercased text (regardless of moderate-hedge hits);
otherwise Moderate with its fixed justification whenever at least two
distinct moderate-hedge cues occur; otherwise High with its fixed
justification.  Cue occurrence is Python's substring test, exactly as
the code evaluates `p in t`. -/
theorem C9_confidence_precedence (a : Option Str) :
    ((∃ p ∈ lowCues, hasSub p (lowerStr (a.getD [])) = true) →
      detect_confidence_level_1 a = (ltr "Low", lowReason))
  ∧ ((∀ p ∈ lowCues, hasSub p (lowerStr (a.getD [])) = false) →
      2 ≤ moderateCues.countP (fun p => hasSub p (lowerStr (a.getD []))) →
      detect_confidence_level_1 a = (ltr "Moderate", moderateReason))
  ∧ ((∀ p ∈ lowCues, hasSub p (lowerStr (a.getD [])) = false) →
      moderateCues.countP (fun p => hasSub p (lowerStr (a.getD []))) < 2 →
      detect_confidence_level_1 a = (ltr "High", highReason)) := by
  refine ⟨?_, ?_, ?_⟩
  · intro h
    have hpos : 1 ≤ lowCues.countP (fun p => hasSub p (lowerStr (a.getD []))) := by
      have h0 : 0 < lowCues.countP (fun p => hasSub p (lowerStr (a.getD []))) :=
        List.countP_pos_iff.mpr h
      omega
    simp [detect_confidence_level_1, hpos]
  · intro h hmod
    have hz : lowCues.countP (fun p => hasSub p (lowerStr (a.getD []))) = 0 := by
      rw [List.countP_eq_zero]
      intro p hp
      simp [h p hp]
    have h1 : ¬ 1 ≤ lowCues.countP (fun p => hasSub p (lowerStr (a.getD []))) := by
      omega
    simp [detect_confidence_level_1, h1, hmod]
  · intro h hmod
    have hz : lowCues.countP (fun p => hasSub p (lowerStr (a.getD []))) = 0 := by
      rw [List.countP_eq_zero]
      intro p hp
      simp [h p hp]
    have h1 : ¬ 1 ≤ lowCues.countP (fun p => hasSub p (lowerStr (a.getD []))) := by
      omega
    have h2 : ¬ 2 ≤ moderateCues.countP (fun p => hasSub p (lowerStr (a.getD []))) := by
      omega
    simp [detect_confidence_level_1, h1, h2]

/-- C9 witness: an answer containing the low cue "not enough evidence"
together with two moderate cues ("may", "mixed") classifies as Low. -/
theorem C9_confidence_precedence_witness :
    detect_confidence_level_1
      (some (ltr "There is not enough evidence; it may be mixed.")) =
      (ltr "Low", lowReason) :=
  (C9_confidence_precedence
    (some (ltr "There is not enough evidence; it may be mixed."))).1
    (by decide)

/-! ### Claim C6 — filler-stripper safety rails -/

/-- C6: for every match function standing in for `_FILLER_PREFIX` and
every input text, `_strip_filler` (1) returns the whitespace-trimmed
input unchanged when it begins with a double quote, (2) returns it
unchanged when stripping would leave fewer than `_MIN_REMAINING_CHARS`
(6) characters, (3) returns it unchanged when the remainder begins with
another question/modal word, and (4) removes at most one leading frame:
the result is either the trimmed input or the trimmed remainder of a
single match. -/
theorem C6_strip_filler_safety (fm : Str → Option Nat) (text : Str) :
    ((pyStrip text).head? = some '"' → _strip_filler fm text = pyStrip text)
  ∧ (∀ e, fm (pyStrip text) = some e →
      (pyStrip ((pyStrip text).drop e)).length < _MIN_REMAINING_CHARS →
      _strip_filler fm text = pyStrip text)
  ∧ (∀ e, fm (pyStrip text) = some e →
      railHead (pyStrip ((pyStrip text).drop e)) = true →
      _strip_filler fm text = pyStrip text)
  ∧ (_strip_filler fm text = pyStrip text ∨
      ∃ e, fm (pyStrip text) = some e ∧
        _strip_filler fm text = pyStrip ((pyStrip text).drop e) ∧
        _MIN_REMAINING_CHARS ≤ (pyStrip ((pyStrip text).drop e)).length ∧
        railHead (pyStrip ((pyStrip text).drop e)) = false) := by
  by_cases hq : (pyStrip text).head? = some '"'
  · refine ⟨fun _ => ?_, fun e he _ => ?_, fun e he _ => ?_, Or.inl ?_⟩ <;>
      simp [_strip_filler, hq]
  · refine ⟨fun hq' => absurd hq' hq, ?_, ?_, ?_⟩
    · intro e he hlen
      simp only [_strip_filler, hq, if_false, he]
      by_cases hnil : pyStrip ((pyStrip text).drop e) = []
      · simp [hnil]
      · simp [hnil, hlen]
    · intro e he hrail
      simp only [_strip_filler, hq, if_false, he]
      by_cases hnil : pyStrip ((pyStrip text).drop e) = []
      · simp [hnil]
      · by_cases hlen : (pyStrip ((pyStrip text).drop e)).length < _MIN_REMAINING_CHARS
        · simp [hnil, hlen]
        · simp [hnil, hlen, hrail]
    · cases hm : fm (pyStrip text) with
      | none => exact Or.inl (by simp [_strip_filler, hq, hm])
      | some e =>
        by_cases hnil : pyStrip ((pyStrip text).drop e) = []
        · exact Or.inl (by simp [_strip_filler, hq, hm, hnil])
        · by_cases hlen : (pyStrip ((pyStrip text).drop e)).length < _MIN_REMAINING_CHARS
          · exact Or.inl (by simp [_strip_filler, hq, hm, hnil, hlen])
          · by_cases hrail : railHead (pyStrip ((pyStrip text).drop e)) = true
            · exact Or.inl (by simp [_strip_filler, hq, hm, hnil, hlen, hrail])
            · refine Or.inr ⟨e, rfl, ?_, by omega, by simpa using hrail⟩
              simp [_strip_filler, hq, hm, hnil, hlen, hrail]

/-- C6 witness: with a match ending at offset 14 on
"tell me about flu", the remainder "flu" has fewer than 6 characters, so
the strip is rejected and the trimmed input is returned. -/
theorem C6_strip_filler_safety_witness :
    _strip_filler (fun _ => some 14) (ltr "tell me about flu") =
      pyStrip (ltr "tell me about flu") :=
  (C6_strip_filler_safety (fun _ => some 14) (ltr "tell me about flu")).2.1
    14 rfl (by decide)

/-! ### Claim C5 — abstract truncation -/

/-- Formalisation of "the cut occurs at a word boundary" for `_truncate`
with cap `maxChars`: the kept prefix (the `maxChars - 3` slice with its
trailing whitespace removed) is empty, or covers the whole stripped
text, or is immediately followed in the stripped text by a whitespace
character. -/
def boundaryCut (text : Str) (maxChars : Nat) : Prop :=
  pyRStrip ((pyStrip text).take (maxChars - 3)) = []
  ∨ (pyRStrip ((pyStrip text).take (maxChars - 3))).length =
      (pyStrip text).length
  ∨ pyIsSpace ((pyStrip text).getD
      (pyRStrip ((pyStrip text).take (maxChars - 3))).length ' ') = true

instance (text : Str) (m : Nat) : Decidable (boundaryCut text m) := by
  unfold boundaryCut; infer_instance

theorem pyRStrip_length_le (l : Str) : (pyRStrip l).length ≤ l.length := by
  have h := (List.dropWhile_sublist (l := l.reverse)
      (p := pyIsSpace)).length_le
  simpa [pyRStrip] using h

/-- C5 counterexample: on an input of 1801 non-space characters the cut
of `_truncate` happens at the fixed position 1797, splitting the single
long word, so the cut is not at a word boundary as the claim states. -/
theorem dropWhile_replicate_of_false {c : Char} {p : Char → Bool}
    (h : p c = false) (n : Nat) :
    List.dropWhile p (List.replicate n c) = List.replicate n c := by
  cases n with
  | zero => rfl
  | succ m => simp [List.replicate_succ, List.dropWhile_cons, h]

theorem pyStrip_replicate_a (n : Nat) :
    pyStrip (List.replicate n 'a') = List.replicate n 'a' := by
  simp [pyStrip, pyLStrip, pyRStrip, List.reverse_replicate,
    dropWhile_replicate_of_false (by decide : pyIsSpace 'a' = false)]

theorem pyRStrip_replicate_a (n : Nat) :
    pyRStrip (List.replicate n 'a') = List.replicate n 'a' := by
  simp [pyRStrip, List.reverse_replicate,
    dropWhile_replicate_of_false (by decide : pyIsSpace 'a' = false)]

/-- C5 counterexample: on an input of 1801 non-space characters the cut
of `_truncate` happens at the fixed position 1797, splitting the single
long word, so the cut is not at a word boundary as the claim states. -/
theorem C5_word_boundary_cex :
    _truncate (List.replicate 1801 'a') 1800 =
      List.replicate 1797 'a' ++ ltr "..."
  ∧ ¬ boundaryCut (List.replicate 1801 'a') 1800 := by
  have htake : (List.replicate 1801 'a').take (1800 - 3) =
      List.replicate 1797 'a' := by
    rw [List.take_replicate]
    norm_num
  have hlen : ∀ (n : Nat), (List.replicate n 'a').length = n :=
    fun n => List.length_replicate n 'a'
  constructor
  · unfold _truncate
    rw [pyStrip_replicate_a]
    rw [if_neg (by rw [hlen]; omega)]
    rw [htake, pyRStrip_replicate_a]
  · unfold boundaryCut
    rw [pyStrip_replicate_a, htake, pyRStrip_replicate_a]
    push_neg
    refine ⟨?_, ?_, ?_⟩
    · intro h
      have := congrArg List.length h
      rw [hlen] at this
      simp at this
    · rw [hlen, hlen]
      omega
    · have hget : (List.replicate 1801 'a').getD
          (List.replicate 1797 'a').length ' ' = 'a' := by
        rw [hlen]
        simp only [List.getD, List.get?_eq_getElem?, List.getElem?_replicate]
        rw [if_pos (by omega)]
        rfl
      rw [hget]
      decide

/-- C5 (amended): the truncation result never exceeds 1800 characters;
an input whose stripped form fits the cap is returned stripped and
otherwise unchanged; an input exceeding the cap is cut at the fixed
1797-character position (not at a word boundary), right-stripped, and
the three-character ellipsis marker is appended. -/
theorem C5_truncate_amended (text : Str) :
    (_truncate text 1800).length ≤ 1800
  ∧ ((pyStrip text).length ≤ 1800 → _truncate text 1800 = pyStrip text)
  ∧ (1800 < (pyStrip text).length →
      _truncate text 1800 =
        pyRStrip ((pyStrip text).take 1797) ++ ltr "...") := by
  refine ⟨?_, ?_, ?_⟩
  · unfold _truncate
    by_cases h : (pyStrip text).length ≤ 1800
    · simpa [h] using h
    · simp only [h, if_false]
      have h1 : (pyRStrip ((pyStrip text).take (1800 - 3))).length ≤ 1797 := by
        have := pyRStrip_length_le ((pyStrip text).take (1800 - 3))
        have h2 : ((pyStrip text).take (1800 - 3)).length ≤ 1797 := by
          simpa using List.length_take_le (1800 - 3) (pyStrip text)
        omega
      simp only [List.length_append]
      have : (ltr "...").length = 3 := by decide
      omega
  · intro h
    simp [_truncate, h]
  · intro h
    have h' : ¬ (pyStrip text).length ≤ 1800 := by omega
    simp [_truncate, h']

/-- C5 witness: a short input is returned stripped and unchanged. -/
theorem C5_truncate_amended_witness :
    _truncate (ltr "  hello world  ") 1800 = pyStrip (ltr "  hello world  ") :=
  (C5_truncate_amended (ltr "  hello world  ")).2.1 (by decide)

/-! ### Claim C2 — date-range invariant -/

/-- C2 counterexample: the extraction applies no ordering check, so the
text "from 2020 to 2015" produces a present range whose start
(2020-01-01) is strictly after its end (2015-12-31), violating the
claimed invariant `start <= end`. -/
theorem C2_order_cex :
    _extract_year_range (ltr "from 2020 to 2015") =
      (some (mkDate 2020 1 1), some (mkDate 2015 12 31))
  ∧ ¬ dateLE (mkDate 2020 1 1) (mkDate 2015 12 31) := by
  constructor
  · decide
  · decide

/-- C2 (amended): a produced range satisfies `start <= end` provided the
first matched year does not exceed the second (range pattern), resp. the
matched year's January 1st does not come after the current instant
(since pattern); and the range is absent whenever neither temporal
pattern matches. -/
theorem C2_range_invariant (text : Str) (now : PyDateTime) :
    (∀ s e, _extract_year_range text = (some s, some e) →
      s.year ≤ e.year → dateLE s e)
  ∧ (∀ s e, _extract_since_year now text = (some s, some e) →
      s.year ≤ now.year → dateLE (mkDate now.year 1 1) now → dateLE s e)
  ∧ (searchRange none (lowerStr text) = none →
      searchSince none (lowerStr text) = none →
      pickDates now text = (none, none)) := by
  refine ⟨?_, ?_, ?_⟩
  · intro s e hex hord
    unfold _extract_year_range at hex
    cases hm : searchRange none (lowerStr text) with
    | none => rw [hm] at hex; exact absurd hex (by simp)
    | some p =>
      obtain ⟨y1, y2⟩ := p
      rw [hm] at hex
      simp only [Prod.mk.injEq, Option.some.injEq] at hex
      obtain ⟨hs, he⟩ := hex
      subst hs; subst he
      simp only [mkDate] at hord
      rcases Nat.lt_or_ge y1 y2 with hlt | hge
      · exact Or.inl hlt
      · have heq : y1 = y2 := by omega
        exact Or.inr ⟨heq, Or.inl (by simp [mkDate])⟩
  · intro s e hex hord hnow
    unfold _extract_since_year at hex
    cases hm : searchSince none (lowerStr text) with
    | none => rw [hm] at hex; exact absurd hex (by simp)
    | some y =>
      rw [hm] at hex
      simp only [Prod.mk.injEq, Option.some.injEq] at hex
      obtain ⟨hs, he⟩ := hex
      subst hs; subst he
      simp only [mkDate] at hord
      rcases Nat.lt_or_ge y now.year with hlt | hge
      · exact Or.inl hlt
      · have heq : y = now.year := by omega
        subst heq
        exact hnow
  · intro h1 h2
    unfold pickDates _extract_year_range _extract_since_year
    rw [h1, h2]
    simp

/-- C2 witness: "from 2015 to 2020" produces the present ordered range
[2015-01-01, 2020-12-31]. -/
theorem C2_range_invariant_witness :
    dateLE (mkDate 2015 1 1) (mkDate 2020 12 31) :=
  (C2_range_invariant (ltr "from 2015 to 2020") (mkDate 2024 1 1)).1
    (mkDate 2015 1 1) (mkDate 2020 12 31) (by decide) (by decide)

/-! ### Claim C1 — idempotence of compilation with expansion disabled -/

/-- C1 counterexample: even with `USE_AI_EXPANSION=0`, the text
"flu since 2019" makes `_extract_since_year` read `datetime.now()`, so
two runs at different clock instants produce different `end_date` trace
fields and different `[PDAT]` clauses — the outputs are not
byte-identical.  (The tokenizer argument is `fun _ => []`: spaCy finds
no noun chunks that survive the filters for this input, but the
counterexample holds for any fixed tokenizer since the date branch does
not depend on it.) -/
theorem C1_idempotence_cex :
    compile_pubmed_query (fun _ => none) (fun _ => []) (fun _ _ _ => [])
        (some (ltr "0")) ⟨2020, 6, 1, 12, 0, 0, 0⟩ (ltr "flu since 2019") ≠
    compile_pubmed_query (fun _ => none) (fun _ => []) (fun _ _ _ => [])
        (some (ltr "0")) ⟨2021, 6, 1, 12, 0, 0, 0⟩ (ltr "flu since 2019") := by
  decide

/-- C1 (amended): with expansion disabled the compiler is a
deterministic function of the raw text and the clock reading: the
expander is irrelevant (byte-identical query string and trace for any
two expanders at the same instant), and the output is moreover
independent of the clock whenever the active date source is not the
`since` pattern (i.e. the range pattern matched, or no `since` match
exists). -/
theorem C1_compile_deterministic (fm : Str → Option Nat)
    (tok : Str → List Str) (ex1 ex2 : Str → List Str → Nat → List Str)
    (env : Option Str) (now now2 : PyDateTime) (text : Str)
    (henv : pyStrip (env.getD (ltr "1")) = ltr "0") :
    compile_pubmed_query fm tok ex1 env now text =
      compile_pubmed_query fm tok ex2 env now text
  ∧ ((_extract_year_range (_strip_filler fm (pyStrip text))).1 ≠ none ∨
      searchSince none (lowerStr (_strip_filler fm (pyStrip text))) = none →
      compile_pubmed_query fm tok ex1 env now text =
        compile_pubmed_query fm tok ex1 env now2 text) := by
  constructor
  · simp [compile_pubmed_query, henv]
  · intro h
    have hdates : pickDates now (_strip_filler fm (pyStrip text)) =
        pickDates now2 (_strip_filler fm (pyStrip text)) := by
      unfold pickDates
      rcases h with h | h
      · simp [h]
      · simp [_extract_since_year, h]
    simp [compile_pubmed_query, hdates]

/-- C1 witness: a concrete compilation with two different expanders and
expansion disabled yields identical outputs. -/
theorem C1_compile_deterministic_witness :
    compile_pubmed_query (fun _ => none) (fun _ => [ltr "flu"])
        (fun _ _ _ => [ltr "influenza"]) (some (ltr "0"))
        (mkDate 2024 1 1) (ltr "flu shots") =
      compile_pubmed_query (fun _ => none) (fun _ => [ltr "flu"])
        (fun _ _ _ => []) (some (ltr "0"))
        (mkDate 2024 1 1) (ltr "flu shots") :=
  (C1_compile_deterministic (fun _ => none) (fun _ => [ltr "flu"])
    (fun _ _ _ => [ltr "influenza"]) (fun _ _ _ => []) (some (ltr "0"))
    (mkDate 2024 1 1) (mkDate 2024 1 1) (ltr "flu shots") (by decide)).1

/-! ### Claim C7 — date precedence and assembly -/

/-- C7: for every input, if the explicit range pattern matches the
filler-stripped core it wins and the trace records
[Y1-01-01, Y2-12-31]; otherwise a `since` match yields
[Y-01-01, now]; and when neither matches both trace dates are absent
and the compiled query is exactly the assembled topic expression with
no date filter appended. -/
theorem C7_date_precedence (fm : Str → Option Nat) (tok : Str → List Str)
    (ex : Str → List Str → Nat → List Str) (env : Option Str)
    (now : PyDateTime) (text : Str) :
    (∀ y1 y2, searchRange none (lowerStr (_strip_filler fm (pyStrip text))) =
        some (y1, y2) →
      (compile_pubmed_query fm tok ex env now text).2.start_date =
          some (isoformat (mkDate y1 1 1)) ∧
      (compile_pubmed_query fm tok ex env now text).2.end_date =
          some (isoformat (mkDate y2 12 31)))
  ∧ (searchRange none (lowerStr (_strip_filler fm (pyStrip text))) = none →
      ∀ y, searchSince none (lowerStr (_strip_filler fm (pyStrip text))) =
          some y →
      (compile_pubmed_query fm tok ex env now text).2.start_date =
          some (isoformat (mkDate y 1 1)) ∧
      (compile_pubmed_query fm tok ex env now text).2.end_date =
          some (isoformat now))
  ∧ (searchRange none (lowerStr (_strip_filler fm (pyStrip text))) = none →
      searchSince none (lowerStr (_strip_filler fm (pyStrip text))) = none →
      (compile_pubmed_query fm tok ex env now text).2.start_date = none ∧
      (compile_pubmed_query fm tok ex env now text).2.end_date = none ∧
      (compile_pubmed_query fm tok ex env now text).1 =
        assembleTopic (pyStrip text)
          ((compile_pubmed_query fm tok ex env now text).2.terms_used)
          ((compile_pubmed_query fm tok ex env now text).2.ai_added_terms)) := by
  refine ⟨?_, ?_, ?_⟩
  · intro y1 y2 h
    constructor <;>
      simp [compile_pubmed_query, pickDates, _extract_year_range, h]
  · intro hr y hs
    constructor <;>
      simp [compile_pubmed_query, pickDates, _extract_year_range,
        _extract_since_year, hr, hs]
  · intro hr hs
    refine ⟨?_, ?_, ?_⟩ <;>
      simp [compile_pubmed_query, pickDates, _extract_year_range,
        _extract_since_year, dateClause, hr, hs]

/-- C7 witness: "flu from 2015 to 2020" is compiled with the trace dates
2015-01-01 and 2020-12-31. -/
theorem C7_date_precedence_witness :
    (compile_pubmed_query (fun _ => none) (fun _ => []) (fun _ _ _ => [])
        none (mkDate 2024 1 1) (ltr "flu from 2015 to 2020")).2.start_date =
      some (isoformat (mkDate 2015 1 1)) ∧
    (compile_pubmed_query (fun _ => none) (fun _ => []) (fun _ _ _ => [])
        none (mkDate 2024 1 1) (ltr "flu from 2015 to 2020")).2.end_date =
      some (isoformat (mkDate 2020 12 31)) :=
  (C7_date_precedence (fun _ => none) (fun _ => []) (fun _ _ _ => [])
    none (mkDate 2024 1 1) (ltr "flu from 2015 to 2020")).1 2015 2020
    (by decide)

/-! ### Claim C10 — empty term extraction fallback -/

/-- C10: whenever term extraction yields no terms, the expander is never
invoked (the output is independent of it, for any state of the
expansion-enable flag), the trace's `ai_added_terms` is empty, and the
compiled query is the whitespace-stripped original text (not the
filler-stripped core) followed only by the optional date filter. -/
theorem C10_empty_terms_fallback (fm : Str → Option Nat)
    (tok : Str → List Str) (ex : Str → List Str → Nat → List Str)
    (env : Option Str) (now : PyDateTime) (text : Str)
    (h : tok (topicTextOf (_strip_filler fm (pyStrip text))) = []) :
    (∀ ex2, compile_pubmed_query fm tok ex env now text =
        compile_pubmed_query fm tok ex2 env now text)
  ∧ (compile_pubmed_query fm tok ex env now text).2.ai_added_terms = []
  ∧ (compile_pubmed_query fm tok ex env now text).1 =
      pyStrip text ++
        dateClause (pickDates now (_strip_filler fm (pyStrip text))) := by
  refine ⟨?_, ?_, ?_⟩
  · intro ex2
    simp [compile_pubmed_query, h]
  · simp [compile_pubmed_query, h]
  · simp [compile_pubmed_query, h, assembleTopic]

/-- C10 witness: for an all-stopword query (tokenizer returns no terms)
with expansion enabled, two different expanders give identical outputs. -/
theorem C10_empty_terms_fallback_witness :
    compile_pubmed_query (fun _ => none) (fun _ => [])
        (fun _ _ _ => [ltr "zzz"]) (some (ltr "1")) (mkDate 2024 1 1)
        (ltr "the of and") =
      compile_pubmed_query (fun _ => none) (fun _ => [])
        (fun _ _ _ => []) (some (ltr "1")) (mkDate 2024 1 1)
        (ltr "the of and") :=
  (C10_empty_terms_fallback (fun _ => none) (fun _ => [])
    (fun _ _ _ => [ltr "zzz"]) (some (ltr "1")) (mkDate 2024 1 1)
    (ltr "the of and") rfl).1 (fun _ _ _ => [])

/-! ### Claim C4 — boolean well-formedness of compiled queries -/

/-- Parenthesis balance in the counting sense used by the spec
("parenthesis count is balanced"). -/
def parensBalanced (s : Str) : Prop := s.count '(' = s.count ')'

instance (s : Str) : Decidable (parensBalanced s) := by
  unfold parensBalanced; infer_instance

/-- Scanner rejecting a `[` that occurs between an odd and even `"`
(inside a quoted phrase): every field tag opens with `[`, so this is
"no field tag appears inside a quoted phrase's quotes". -/
def tagScan : Bool → Str → Bool
  | _, [] => true
  | inQ, c :: cs =>
    if c = '"' then tagScan (!inQ) cs
    else if c = '[' then (if inQ then false else tagScan inQ cs)
    else tagScan inQ cs

def noTagInQuotes (s : Str) : Prop := tagScan false s = true

/-- Quote parity after scanning a segment. -/
def qpar (b : Bool) (u : Str) : Bool :=
  u.foldl (fun acc c => if c = '"' then !acc else acc) b

theorem qpar_append (b : Bool) (u v : Str) :
    qpar b (u ++ v) = qpar (qpar b u) v := by
  simp [qpar, List.foldl_append]

theorem tagScan_append (b : Bool) (u v : Str) :
    tagScan b (u ++ v) = (tagScan b u && tagScan (qpar b u) v) := by
  induction u generalizing b with
  | nil => simp [tagScan, qpar]
  | cons c u ih =>
    simp only [List.cons_append, tagScan, qpar, List.foldl_cons]
    by_cases hq : c = '"'
    · simp only [if_pos hq]
      exact ih (!b)
    · simp only [if_neg hq]
      by_cases hb : c = '['
      · simp only [if_pos hb]
        cases b with
        | true => simp
        | false =>
          simp only [Bool.false_eq_true, if_false]
          exact ih false
      · simp only [if_neg hb]
        exact ih b

/-- A segment that scans cleanly from entry parity `b1` and leaves
parity `b2`. -/
def segOk (b1 b2 : Bool) (s : Str) : Prop :=
  tagScan b1 s = true ∧ qpar b1 s = b2

instance (b1 b2 : Bool) (s : Str) : Decidable (segOk b1 b2 s) := by
  unfold segOk; infer_instance

theorem segOk_append {b1 b2 b3 : Bool} {u v : Str}
    (hu : segOk b1 b2 u) (hv : segOk b2 b3 v) : segOk b1 b3 (u ++ v) := by
  obtain ⟨hu1, hu2⟩ := hu
  obtain ⟨hv1, hv2⟩ := hv
  constructor
  · rw [tagScan_append, hu1, hu2, hv1]
    rfl
  · rw [qpar_append, hu2, hv2]

/-- Characters that cannot disturb quoting, field tags, or parenthesis
counting when they occur inside a term. -/
def queryPlain (s : Str) : Prop :=
  ∀ c ∈ s, c ≠ '(' ∧ c ≠ ')' ∧ c ≠ '"' ∧ c ≠ '['

instance (s : Str) : Decidable (queryPlain s) := by
  unfold queryPlain; infer_instance

theorem tagScan_plain {s : Str} (h : ∀ c ∈ s, c ≠ '"' ∧ c ≠ '[') (b : Bool) :
    tagScan b s = true := by
  induction s generalizing b with
  | nil => rfl
  | cons c cs ih =>
    have hc := h c (by simp)
    simp only [tagScan, if_neg hc.1, if_neg hc.2]
    exact ih (fun x hx => h x (by simp [hx])) b

theorem qpar_plain {s : Str} (h : ∀ c ∈ s, c ≠ '"') (b : Bool) :
    qpar b s = b := by
  induction s generalizing b with
  | nil => rfl
  | cons c cs ih =>
    have hc := h c (by simp)
    simp only [qpar, List.foldl_cons, if_neg hc]
    exact ih (fun x hx => h x (by simp [hx])) b

theorem segOk_plain {s : Str} (h : queryPlain s) (b : Bool) : segOk b b s :=
  ⟨tagScan_plain (fun c hc => ⟨(h c hc).2.2.1, (h c hc).2.2.2⟩) b,
   qpar_plain (fun c hc => (h c hc).2.2.1) b⟩

theorem count_eq_zero_of_plain {s : Str} (h : queryPlain s) :
    s.count '(' = 0 ∧ s.count ')' = 0 := by
  constructor <;> rw [List.count_eq_zero]
  · exact fun hm => (h '(' hm).1 rfl
  · exact fun hm => (h ')' hm).2.1 rfl

/-- A join component of the topic query: no parentheses at all, and a
clean quote/tag scan that starts and ends outside quotes. -/
def clauseOk (s : Str) : Prop :=
  s.count '(' = 0 ∧ s.count ')' = 0 ∧ segOk false false s

instance (s : Str) : Decidable (clauseOk s) := by
  unfold clauseOk; infer_instance

theorem clauseOk_append {u v : Str} (hu : clauseOk u) (hv : clauseOk v) :
    clauseOk (u ++ v) := by
  refine ⟨?_, ?_, segOk_append hu.2.2 hv.2.2⟩ <;>
    simp [List.count_append, hu.1, hu.2.1, hv.1, hv.2.1]

theorem mkClause_clauseOk {t : Str} (h : queryPlain t) :
    clauseOk (mkClause t) := by
  have hp := count_eq_zero_of_plain h
  unfold mkClause
  split
  · have heq : ('"' :: (t ++ '"' :: tagTA)) = ['"'] ++ t ++ ('"' :: tagTA) := by
      simp
    rw [heq]
    refine ⟨?_, ?_, ?_⟩
    · rw [List.count_append, List.count_append, hp.1]
      decide
    · rw [List.count_append, List.count_append, hp.2]
      decide
    · exact segOk_append
        (segOk_append (by decide) (segOk_plain h true)) (by decide)
  · refine ⟨?_, ?_, ?_⟩
    · rw [List.count_append, hp.1]
      decide
    · rw [List.count_append, hp.2]
      decide
    · exact segOk_append (segOk_plain h false) (by decide)

theorem joinSep_clauseOk (sep : Str) (hsep : clauseOk sep) :
    ∀ (L : List Str), (∀ x ∈ L, clauseOk x) → clauseOk (joinSep sep L)
  | [], _ => ⟨rfl, rfl, rfl, rfl⟩
  | [x], hL => hL x (by simp)
  | x :: y :: ys, hL => by
    have hx : clauseOk x := hL x (by simp)
    have hrest : clauseOk (joinSep sep (y :: ys)) :=
      joinSep_clauseOk sep hsep (y :: ys) (fun z hz => hL z (by simp at hz ⊢; tauto))
    show clauseOk (x ++ sep ++ joinSep sep (y :: ys))
    exact clauseOk_append (clauseOk_append hx hsep) hrest

theorem digitChar_isDigit {n : Nat} (h : n < 10) :
    (Nat.digitChar n).isDigit = true := by
  interval_cases n <;> decide

theorem decDigitsAux_isDigit (fuel : Nat) :
    ∀ (n : Nat), ∀ c ∈ decDigitsAux fuel n, c.isDigit = true := by
  induction fuel with
  | zero => intro n c hc; simp [decDigitsAux] at hc
  | succ f ih =>
    intro n c hc
    simp only [decDigitsAux] at hc
    split at hc
    next h10 =>
      simp at hc
      subst hc
      exact digitChar_isDigit h10
    next h10 =>
      rcases List.mem_append.mp hc with h1 | h2
      · exact ih (n / 10) c h1
      · simp at h2
        subst h2
        exact digitChar_isDigit (Nat.mod_lt n (by omega))

theorem padZ_decDigits_isDigit {w n : Nat} :
    ∀ c ∈ padZ w (decDigits n), c.isDigit = true := by
  intro c hc
  unfold padZ decDigits at hc
  rcases List.mem_append.mp hc with h1 | h2
  · rw [List.eq_of_mem_replicate h1]
    decide
  · exact decDigitsAux_isDigit _ _ c h2

theorem isDigit_plainChar {c : Char} (h : c.isDigit = true) :
    c ≠ '(' ∧ c ≠ ')' ∧ c ≠ '"' ∧ c ≠ '[' := by
  refine ⟨?_, ?_, ?_, ?_⟩ <;> (rintro rfl; exact absurd h (by decide))

theorem fmt_pdat_chars (d : PyDateTime) :
    ∀ c ∈ _fmt_pdat d, c.isDigit = true ∨ c = '/' := by
  intro c hc
  have hbody : _fmt_pdat d =
      padZ 4 (decDigits d.year) ++ (['/'] ++ (padZ 2 (decDigits d.month) ++
        (['/'] ++ padZ 2 (decDigits d.day)))) := by
    simp [_fmt_pdat, num4, num2]
  rw [hbody] at hc
  simp only [List.mem_append, List.mem_singleton] at hc
  rcases hc with h | h | h | h | h
  · exact Or.inl (padZ_decDigits_isDigit c h)
  · exact Or.inr h
  · exact Or.inl (padZ_decDigits_isDigit c h)
  · exact Or.inr h
  · exact Or.inl (padZ_decDigits_isDigit c h)

theorem fmt_pdat_plain (d : PyDateTime) : queryPlain (_fmt_pdat d) := by
  intro c hc
  rcases fmt_pdat_chars d c hc with h | h
  · exact isDigit_plainChar h
  · subst h
    exact ⟨by decide, by decide, by decide, by decide⟩

theorem dateClause_wellformed (d : Option PyDateTime × Option PyDateTime) :
    (dateClause d).count '(' = (dateClause d).count ')' ∧
    segOk false false (dateClause d) := by
  obtain ⟨os, oe⟩ := d
  cases os with
  | none => exact ⟨rfl, rfl, rfl⟩
  | some s =>
    cases oe with
    | none => exact ⟨rfl, rfl, rfl⟩
    | some e =>
      have hs := count_eq_zero_of_plain (fmt_pdat_plain s)
      have he := count_eq_zero_of_plain (fmt_pdat_plain e)
      have hA : segOk false true (ltr " AND (\"") := by decide
      have hB : segOk true true (ltr "\"[PDAT] : \"") := by decide
      have hC : segOk true false (ltr "\"[PDAT])") := by decide
      constructor
      · simp only [dateClause, List.count_append, hs.1, hs.2, he.1, he.2]
        decide
      · simp only [dateClause]
        exact segOk_append
          (segOk_append
            (segOk_append
              (segOk_append hA (segOk_plain (fmt_pdat_plain s) true)) hB)
            (segOk_plain (fmt_pdat_plain e) true)) hC

theorem assembled_wellformed (original : Str) (terms aiTerms : List Str)
    (dates : Option PyDateTime × Option PyDateTime)
    (hne : terms ≠ []) (ht : ∀ t ∈ terms, queryPlain t)
    (ha : ∀ t ∈ aiTerms, queryPlain t) :
    parensBalanced (assembleTopic original terms aiTerms ++ dateClause dates) ∧
    noTagInQuotes (assembleTopic original terms aiTerms ++ dateClause dates) := by
  have hJ1 : clauseOk (joinSep (ltr " AND ") (terms.map mkClause)) :=
    joinSep_clauseOk _ (by decide) _ (by
      intro x hx
      rcases List.mem_map.mp hx with ⟨t, htm, rfl⟩
      exact mkClause_clauseOk (ht t htm))
  have hJ2 : clauseOk (joinSep (ltr " OR ") (aiTerms.map mkClause)) :=
    joinSep_clauseOk _ (by decide) _ (by
      intro x hx
      rcases List.mem_map.mp hx with ⟨t, htm, rfl⟩
      exact mkClause_clauseOk (ha t htm))
  have hD := dateClause_wellformed dates
  have hTopic : (assembleTopic original terms aiTerms).count '(' =
      (assembleTopic original terms aiTerms).count ')' ∧
      segOk false false (assembleTopic original terms aiTerms) := by
    simp only [assembleTopic, if_neg hne]
    split
    · constructor
      · simp only [List.count_append, hJ1.1, hJ1.2.1]
        decide
      · exact segOk_append (segOk_append (by decide) hJ1.2.2) (by decide)
    · constructor
      · simp only [List.count_append, hJ1.1, hJ1.2.1, hJ2.1, hJ2.2.1]
        decide
      · exact segOk_append
          (segOk_append
            (segOk_append (segOk_append (by decide) hJ1.2.2) (by decide))
            hJ2.2.2) (by decide)
  constructor
  · unfold parensBalanced
    rw [List.count_append, List.count_append, hTopic.1, hD.1]
  · exact (segOk_append hTopic.2 hD.2).1

/-- C4 counterexample: for the input "(" no terms are extracted (spaCy
finds no noun chunks and there is no quoted phrase, and every filter of
`_tokenize_terms` discards chunks without alphabetic tokens, so the
tokenizer returns `[]`), the verbatim fallback makes the compiled query
the single character "(", and its parenthesis count is not balanced. -/
theorem C4_balanced_cex :
    (compile_pubmed_query (fun _ => none) (fun _ => []) (fun _ _ _ => [])
        none (mkDate 2024 1 1) (ltr "(")).1 = ltr "("
  ∧ ¬ parensBalanced
      (compile_pubmed_query (fun _ => none) (fun _ => []) (fun _ _ _ => [])
        none (mkDate 2024 1 1) (ltr "(")).1 := by
  constructor
  · decide
  · decide

/-- C4 (amended): whenever at least one term is extracted and no
extracted or AI-expanded term contains a parenthesis, double quote or
opening bracket, the compiled query has balanced parenthesis count and
no field tag inside a quoted phrase's quotes; the no-terms fallback
copies the raw text verbatim and can violate both properties. -/
theorem C4_wellformed (fm : Str → Option Nat) (tok : Str → List Str)
    (ex : Str → List Str → Nat → List Str) (env : Option Str)
    (now : PyDateTime) (text : Str)
    (hne : tok (topicTextOf (_strip_filler fm (pyStrip text))) ≠ [])
    (ht : ∀ t ∈ tok (topicTextOf (_strip_filler fm (pyStrip text))),
      queryPlain t)
    (ha : ∀ t ∈ ex (pyStrip text)
        (tok (topicTextOf (_strip_filler fm (pyStrip text)))) 6,
      queryPlain t) :
    parensBalanced (compile_pubmed_query fm tok ex env now text).1 ∧
    noTagInQuotes (compile_pubmed_query fm tok ex env now text).1 := by
  have hq : (compile_pubmed_query fm tok ex env now text).1 =
      assembleTopic (pyStrip text)
        (tok (topicTextOf (_strip_filler fm (pyStrip text))))
        (if decide (pyStrip (env.getD (ltr "1")) ≠ ltr "0") &&
            decide (tok (topicTextOf (_strip_filler fm (pyStrip text))) ≠ [])
          then ex (pyStrip text)
            (tok (topicTextOf (_strip_filler fm (pyStrip text)))) 6
          else []) ++
      dateClause (pickDates now (_strip_filler fm (pyStrip text))) := rfl
  rw [hq]
  refine assembled_wellformed _ _ _ _ hne ht ?_
  intro t htm
  by_cases hc : (decide (pyStrip (env.getD (ltr "1")) ≠ ltr "0") &&
      decide (tok (topicTextOf (_strip_filler fm (pyStrip text))) ≠ [])) = true
  · rw [if_pos hc] at htm
    exact ha t htm
  · rw [if_neg hc] at htm
    exact absurd htm (by simp)

/-- C4 witness: a two-term extraction with no expansion compiles to a
balanced, tag-safe query. -/
theorem C4_wellformed_witness :
    parensBalanced (compile_pubmed_query (fun _ => none)
        (fun _ => [ltr "caffeine", ltr "sleep quality"]) (fun _ _ _ => [])
        none (mkDate 2024 1 1) (ltr "caffeine and sleep")).1 ∧
    noTagInQuotes (compile_pubmed_query (fun _ => none)
        (fun _ => [ltr "caffeine", ltr "sleep quality"]) (fun _ _ _ => [])
        none (mkDate 2024 1 1) (ltr "caffeine and sleep")).1 :=
  C4_wellformed (fun _ => none) (fun _ => [ltr "caffeine", ltr "sleep quality"])
    (fun _ _ _ => []) none (mkDate 2024 1 1) (ltr "caffeine and sleep")
    (by decide) (by decide) (by decide)

/-! ### Claim C8 — expansion safety filter -/

/-- The acceptance conditions of `_clean_candidate` on its cleaned
string: length in [3, 60], no query-syntax character, no standalone
boolean operator word, no leading hyphen. -/
def passesChecks (c : Str) : Bool :=
  decide (3 ≤ c.length) && decide (c.length ≤ 60) && !(c.any badChar) &&
  !(hasBoolTok c) && !(decide (c.head? = some '-'))

theorem clean_candidate_cases (s : Str) :
    _clean_candidate s = [] ∨
    (_clean_candidate s = collapseWS (cleanTrim s) ∧
      passesChecks (_clean_candidate s) = true) := by
  unfold _clean_candidate
  split_ifs with h1 h2 h3 h4 h5
  · exact Or.inl rfl
  · exact Or.inl rfl
  · exact Or.inl rfl
  · exact Or.inl rfl
  · exact Or.inl rfl
  · refine Or.inr ⟨rfl, ?_⟩
    simp only [passesChecks, Bool.and_eq_true, decide_eq_true_eq,
      Bool.not_eq_true']
    refine ⟨⟨⟨⟨by omega, by omega⟩, ?_⟩, ?_⟩, ?_⟩
    · simpa using h2
    · simpa using h3
    · simp only [Bool.not_eq_true, decide_eq_false_iff_not]
      exact h4

theorem expLoop_spec (maxNew : Nat) :
    ∀ (lines seen acc : List Str),
      (∀ a ∈ acc, lowerStr a ∈ seen) →
      acc.Pairwise (fun a b => lowerStr a ≠ lowerStr b) →
      acc.length < maxNew →
      (expLoop maxNew seen acc lines).length ≤ maxNew ∧
      (∀ c ∈ expLoop maxNew seen acc lines,
        c ∈ acc ∨ (passesChecks c = true ∧ lowerStr c ∉ seen)) ∧
      (expLoop maxNew seen acc lines).Pairwise
        (fun a b => lowerStr a ≠ lowerStr b) ∧
      ∃ s, expLoop maxNew seen acc lines = acc ++ s ∧
        s.Sublist (lines.map _clean_candidate) := by
  intro lines
  induction lines with
  | nil =>
    intro seen acc hseen hpw hlen
    refine ⟨by simpa [expLoop] using Nat.le_of_lt hlen,
      fun c hc => Or.inl (by simpa [expLoop] using hc),
      by simpa [expLoop] using hpw,
      ⟨[], by simp [expLoop], List.nil_sublist _⟩⟩
  | cons ln rest ih =>
    intro seen acc hseen hpw hlen
    by_cases h1 : _clean_candidate ln = []
    · have heq : expLoop maxNew seen acc (ln :: rest) =
          expLoop maxNew seen acc rest := by
        simp [expLoop, h1]
      rw [heq]
      obtain ⟨ha, hb, hc, s, hs, hsub⟩ := ih seen acc hseen hpw hlen
      exact ⟨ha, hb, hc, s, hs, hsub.cons _⟩
    · have hpass : passesChecks (_clean_candidate ln) = true := by
        rcases clean_candidate_cases ln with h | h
        · exact absurd h h1
        · exact h.2
      by_cases h2 : lowerStr (_clean_candidate ln) ∈ seen
      · have heq : expLoop maxNew seen acc (ln :: rest) =
            expLoop maxNew seen acc rest := by
          simp [expLoop, h1, h2]
        rw [heq]
        obtain ⟨ha, hb, hc, s, hs, hsub⟩ := ih seen acc hseen hpw hlen
        exact ⟨ha, hb, hc, s, hs, hsub.cons _⟩
      · by_cases h3 : maxNew ≤ acc.length + 1
        · have heq : expLoop maxNew seen acc (ln :: rest) =
              acc ++ [_clean_candidate ln] := by
            simp [expLoop, h1, h2, h3]
          rw [heq]
          refine ⟨?_, ?_, ?_, ?_⟩
          · simp only [List.length_append, List.length_singleton]
            omega
          · intro c hc
            rcases List.mem_append.mp hc with h | h
            · exact Or.inl h
            · rcases List.mem_singleton.mp h with rfl
              exact Or.inr ⟨hpass, h2⟩
          · rw [List.pairwise_append]
            refine ⟨hpw, List.pairwise_singleton _ _, ?_⟩
            intro a hla b hlb
            rcases List.mem_singleton.mp hlb with rfl
            intro hcontra
            exact h2 (hcontra ▸ hseen a hla)
          · exact ⟨[_clean_candidate ln], rfl,
              List.Sublist.cons₂ _ (List.nil_sublist _)⟩
        · have heq : expLoop maxNew seen acc (ln :: rest) =
              expLoop maxNew (lowerStr (_clean_candidate ln) :: seen)
                (acc ++ [_clean_candidate ln]) rest := by
            simp [expLoop, h1, h2, h3]
          rw [heq]
          have hseen' : ∀ a ∈ acc ++ [_clean_candidate ln],
              lowerStr a ∈ lowerStr (_clean_candidate ln) :: seen := by
            intro a ha
            rcases List.mem_append.mp ha with h | h
            · exact List.mem_cons_of_mem _ (hseen a h)
            · rcases List.mem_singleton.mp h with rfl
              exact List.mem_cons_self _ _
          have hpw' : (acc ++ [_clean_candidate ln]).Pairwise
              (fun a b => lowerStr a ≠ lowerStr b) := by
            rw [List.pairwise_append]
            refine ⟨hpw, List.pairwise_singleton _ _, ?_⟩
            intro a hla b hlb
            rcases List.mem_singleton.mp hlb with rfl
            intro hcontra
            exact h2 (hcontra ▸ hseen a hla)
          have hlen' : (acc ++ [_clean_candidate ln]).length < maxNew := by
            simp only [List.length_append, List.length_singleton]
            omega
          obtain ⟨ha, hb, hc, s, hs, hsub⟩ :=
            ih (lowerStr (_clean_candidate ln) :: seen)
              (acc ++ [_clean_candidate ln]) hseen' hpw' hlen'
          refine ⟨ha, ?_, hc, ?_⟩
          · intro c hcm
            rcases hb c hcm with h | h
            · rcases List.mem_append.mp h with h | h
              · exact Or.inl h
              · rcases List.mem_singleton.mp h with rfl
                exact Or.inr ⟨hpass, h2⟩
            · exact Or.inr ⟨h.1, fun hmem =>
                h.2 (List.mem_cons_of_mem _ hmem)⟩
          · refine ⟨_clean_candidate ln :: s, ?_, ?_⟩
            · rw [hs, List.append_assoc]
              rfl
            · exact List.Sublist.cons₂ _ hsub

/-- C8: for every raw backend output (and any positive max-new limit),
the safety-filter stage of `expand_terms_groq` returns at most `maxNew`
candidates; every returned candidate passes all cleaning checks (length
in [3, 60] after quote-trimming and whitespace collapsing, no
`[ ] ( ) :` character, no standalone AND/OR/NOT in any case, no leading
hyphen); no returned candidate case-insensitively duplicates a seed term
or another returned candidate; the returned list is a sublist of the
cleaned lines in production order; and any string with one of the
rejected properties never occurs in the returned list. -/
theorem C8_expansion_filter (seeds : List Str) (maxNew : Nat) (text : Str)
    (hpos : 1 ≤ maxNew) :
    (expansionFilter seeds maxNew text).length ≤ maxNew
  ∧ (∀ c ∈ expansionFilter seeds maxNew text, passesChecks c = true)
  ∧ (∀ c ∈ expansionFilter seeds maxNew text, ∀ t ∈ seeds,
      lowerStr c ≠ lowerStr t)
  ∧ (expansionFilter seeds maxNew text).Pairwise
      (fun a b => lowerStr a ≠ lowerStr b)
  ∧ (expansionFilter seeds maxNew text).Sublist
      ((rawLinesOf text).map _clean_candidate)
  ∧ (∀ x : Str, (x.length < 3 ∨ 60 < x.length ∨ x.any badChar = true ∨
      hasBoolTok x = true ∨ x.head? = some '-') →
      x ∉ expansionFilter seeds maxNew text) := by
  obtain ⟨ha, hb, hc, s, hs, hsub⟩ :=
    expLoop_spec maxNew (rawLinesOf text) (seeds.map lowerStr) []
      (by simp) List.Pairwise.nil (by simpa using hpos)
  have hmem : ∀ c ∈ expansionFilter seeds maxNew text,
      passesChecks c = true ∧ lowerStr c ∉ seeds.map lowerStr := by
    intro c hcm
    rcases hb c hcm with h | h
    · exact absurd h (List.not_mem_nil c)
    · exact h
  refine ⟨ha, fun c hcm => (hmem c hcm).1, ?_, hc, ?_, ?_⟩
  · intro c hcm t ht hcontra
    exact (hmem c hcm).2 (hcontra ▸ List.mem_map_of_mem lowerStr ht)
  · show (expansionFilter seeds maxNew text).Sublist _
    have : expansionFilter seeds maxNew text = s := by
      simpa using hs
    rw [this]
    exact hsub
  · intro x hx hmemx
    have hp := (hmem x hmemx).1
    simp only [passesChecks, Bool.and_eq_true, decide_eq_true_eq,
      Bool.not_eq_true'] at hp
    obtain ⟨⟨⟨⟨hl3, hl60⟩, hbad⟩, hbool⟩, hhyph⟩ := hp
    rcases hx with h | h | h | h | h
    · omega
    · omega
    · rw [h] at hbad; exact absurd hbad (by decide)
    · rw [h] at hbool; exact absurd hbool (by decide)
    · rw [decide_eq_false_iff_not] at hhyph
      exact hhyph h

/-- C8 witness: a concrete backend output with an unsafe line, a seed
duplicate and a hyphenated line is filtered to the two safe candidates
in production order. -/
theorem C8_expansion_filter_witness :
    (expansionFilter [ltr "flu"] 6
      (ltr "vaccine\nFLU\n(bad)\nshot jab\n- neg")).length ≤ 6 :=
  (C8_expansion_filter [ltr "flu"] 6
    (ltr "vaccine\nFLU\n(bad)\nshot jab\n- neg") (by decide)).1
